import Mathlib

set_option maxHeartbeats 1000000

/-! Shallow embedding of the GroupMe bridge synchronization core: the client
merge cache (src/client/src/components/ChatArea.tsx), the reconnecting
websocket hook (src/client/src/hooks/use-websocket.ts), and the server-side
subscription broadcast relay (src/server/routes.ts). -/

/-- Embeds the `GroupMeMessage` shape of src/shared/schema.ts. Runtime payloads
reach the client untyped (the effect casts `lastMessage.message as
GroupMeMessage` without validation), so the two fields whose absence the spec
calls a malformed payload are modeled as `Option`: `id` (the deduplication key)
and `created_at` (the source stores an ISO string and compares
`new Date(x).getTime()`, modeled as an epoch integer). -/
structure GroupMeMessage where
  id : Option String
  source_guid : String
  created_at : Option Int
  user_id : String
  group_id : String
  name : String
  text : String
  system : Bool
deriving DecidableEq, Repr

/-- Builds a message fixing the fields no claim inspects. -/
def mkMsg (i : Option String) (t : Option Int) : GroupMeMessage :=
  ⟨i, "guid", t, "u1", "g1", "n", "hello", false⟩

/-- Embeds the `setQueryData` updater of the `new_message` effect at
ChatArea.tsx lines 96-108: reject the pushed message when some cached message
has the same `id` (strict equality, so two absent ids also compare equal), else
append it. The `!oldData` branch returning `[newMessage]` agrees with the `[]`
case of this definition. -/
def applyDelta (old : List GroupMeMessage) (m : GroupMeMessage) : List GroupMeMessage :=
  if old.any (fun msg => msg.id == m.id) then old else old ++ [m]

/-- Embeds the polling path at ChatArea.tsx lines 47-60: the 5-second refetch
stores the fetched message list as the new query data, replacing the previous
value (react-query assigns the queryFn result to the cache entry; the component
performs no merging on this path). -/
def applySnapshot (old snap : List GroupMeMessage) : List GroupMeMessage := snap

/-- One application of a message batch to the cache via one of the two inbound
paths. -/
inductive MergeOp
  | delta (m : GroupMeMessage)
  | snapshot (s : List GroupMeMessage)
deriving DecidableEq, Repr

/-- Application of one merge operation to the cache. -/
def applyOp (c : List GroupMeMessage) : MergeOp → List GroupMeMessage
  | .delta m => applyDelta c m
  | .snapshot s => applySnapshot c s

/-- Application of a sequence of merge operations, oldest first. -/
def applyOps (c : List GroupMeMessage) (ops : List MergeOp) : List GroupMeMessage :=
  ops.foldl applyOp c

/-- Number of cached entries whose identifier equals `i`. -/
def countId (l : List GroupMeMessage) (i : Option String) : Nat :=
  l.countP (fun m => m.id == i)

/-- Embeds the `WebSocketMessage` interface of use-websocket.ts lines 3-7. -/
structure WebSocketMessage where
  type : String
  groupId : Option String
  message : Option GroupMeMessage
deriving DecidableEq, Repr

/-- Result of `JSON.parse` on one inbound frame: either the raw data fails to
parse or it yields an event object. -/
inductive RawInbound
  | malformed
  | wellFormed (ev : WebSocketMessage)
deriving DecidableEq, Repr

/-- Embeds the onmessage handler of use-websocket.ts lines 73-82: a parse
failure is caught and logged and `lastMessage` keeps its previous value;
otherwise the parsed event becomes the new `lastMessage`. -/
def onMessageHandler (last : Option WebSocketMessage) (raw : RawInbound) :
    Option WebSocketMessage :=
  match raw with
  | .malformed => last
  | .wellFormed ev => some ev

/-- Embeds the `new_message` effect of ChatArea.tsx lines 87-112: the delta is
applied only when an event is present, its type is `new_message`, its `groupId`
equals the selected group and its `message` payload is present (truthy). -/
def chatAreaNewMessageEffect (selected : String) (cache : List GroupMeMessage)
    (last : Option WebSocketMessage) : List GroupMeMessage :=
  match last with
  | none => cache
  | some ev =>
    match ev.message with
    | none => cache
    | some m =>
      if ev.type == "new_message" && ev.groupId == some selected then applyDelta cache m
      else cache

/-- One inbound websocket frame processed end to end: the onmessage parse of
the hook, then the ChatArea effect on the resulting `lastMessage`. -/
def processInbound (selected : String) (cache : List GroupMeMessage)
    (raw : RawInbound) : List GroupMeMessage :=
  chatAreaNewMessageEffect selected cache (onMessageHandler none raw)

/-- Timestamp used by the render sort at ChatArea.tsx lines 200-203,
`new Date(a.created_at).getTime()`; a missing timestamp is read as 0 here (the
sorting claims concern messages that carry their timestamp). -/
def msgTime (m : GroupMeMessage) : Int := m.created_at.getD 0

/-- Comparator relation of the render sort: `a` stays before `b` whenever its
timestamp is not larger (the source comparator returns the difference of the
two `getTime()` values). -/
def msgLe (a b : GroupMeMessage) : Bool := decide (msgTime a ≤ msgTime b)

/-- Stable insertion modeling one placement of `Array.prototype.sort` with the
numeric comparator (the JS sort is stable): an element is inserted after every
element whose timestamp is not larger, so equal timestamps keep input order. -/
def sortInsert (m : GroupMeMessage) : List GroupMeMessage → List GroupMeMessage
  | [] => [m]
  | x :: xs => if msgLe x m then x :: sortInsert m xs else m :: x :: xs

/-- Embeds `sortedMessages` of ChatArea.tsx lines 200-203: a stable sort of the
cached messages by creation timestamp, oldest first. -/
def sortedMessages (msgs : List GroupMeMessage) : List GroupMeMessage :=
  msgs.foldl (fun acc m => sortInsert m acc) []

/-- Constant MAX_RETRIES of use-websocket.ts line 9. -/
def MAX_RETRIES : Nat := 5

/-- Constant INITIAL_RETRY_DELAY in milliseconds, use-websocket.ts line 10. -/
def INITIAL_RETRY_DELAY : Nat := 1000

/-- Delay computed by the onclose handler at use-websocket.ts line 60:
`Math.pow(2, retryCount.current) * INITIAL_RETRY_DELAY`. -/
def retryDelay (retryCount : Nat) : Nat := 2 ^ retryCount * INITIAL_RETRY_DELAY

/-- Lifecycle of the single owned transport `ws.current`. -/
inductive Transport
  | vacant
  | connecting
  | opened
  | closing
  | closed
deriving DecidableEq, Repr

/-- State of one `useWebSocket` session. Retry timers are tracked by identity:
`pending` holds the ids of timers that were set and have neither fired nor been
cancelled, and `stored` is the handle kept in `retryTimer.current`, so that
cancelling the stored handle and a timer consuming itself stay distinct, as in
the source. `attempts` counts `new WebSocket(...)` constructions and `delays`
logs every scheduled retry delay in order. -/
structure SessionState where
  retryCount : Nat
  pending : List Nat
  stored : Option Nat
  nextId : Nat
  intentionalClose : Bool
  transport : Transport
  attempts : Nat
  delays : List Nat
deriving DecidableEq, Repr

/-- Clearing of the retry timer, the source pattern that cancels the stored
handle if there is one and nulls it; `clearTimeout` removes the timer from the
pending set only when it is still pending. -/
def clearRetryTimer (s : SessionState) : SessionState :=
  match s.stored with
  | some t => { s with pending := s.pending.erase t, stored := none }
  | none => s

/-- Embeds `connect` of use-websocket.ts lines 22-89: clear any stored timer;
if the current socket is OPEN or CONNECTING do nothing more; otherwise reset
`intentionalClose` and construct a new socket, which starts CONNECTING. -/
def connectFn (s : SessionState) : SessionState :=
  if (clearRetryTimer s).transport = .connecting ∨
      (clearRetryTimer s).transport = .opened then clearRetryTimer s
  else { (clearRetryTimer s) with
         intentionalClose := false,
         transport := .connecting,
         attempts := (clearRetryTimer s).attempts + 1 }

/-- Embeds the onopen handler of use-websocket.ts lines 40-52: reset the retry
counter to 0 and clear any stored timer (the join declaration it may send is
routed on the server side and not part of the session state). -/
def onOpenFn (s : SessionState) : SessionState :=
  clearRetryTimer { s with transport := .opened, retryCount := 0 }

/-- Embeds the onclose handler of use-websocket.ts lines 54-71: when the
closure was not intentional and fewer than MAX_RETRIES retries have fired,
schedule a retry timer with the exponential delay; otherwise only log. -/
def onCloseFn (s : SessionState) : SessionState :=
  if s.intentionalClose then { s with transport := .closed }
  else if s.retryCount < MAX_RETRIES then
    { s with transport := .closed,
             pending := s.pending ++ [s.nextId], stored := some s.nextId,
             nextId := s.nextId + 1,
             delays := s.delays ++ [retryDelay s.retryCount] }
  else { s with transport := .closed }

/-- Body of the retry timer callback at use-websocket.ts lines 63-66: increment
the retry counter and call `connect`; the fired timer has already left the
pending set when the callback runs. -/
def timerFireFn (s : SessionState) : SessionState :=
  connectFn { s with retryCount := s.retryCount + 1 }

/-- Embeds the effect cleanup of use-websocket.ts lines 94-106: mark the next
closure intentional, cancel any stored timer, call `close()` on an outstanding
socket and reset the retry counter. -/
def cleanupFn (s : SessionState) : SessionState :=
  if (clearRetryTimer { s with intentionalClose := true }).transport = .connecting ∨
      (clearRetryTimer { s with intentionalClose := true }).transport = .opened
  then { (clearRetryTimer { s with intentionalClose := true }) with
         transport := .closing,
         retryCount := 0 }
  else { (clearRetryTimer { s with intentionalClose := true }) with
         retryCount := 0 }

/-- Events driving a session: the two calls made by the owning component and
the three callbacks fired by the runtime. -/
inductive SessionEv
  | connectCall
  | cleanupCall
  | openEvt
  | closeEvt
  | fire (t : Nat)
deriving DecidableEq, Repr

/-- One event step. An event whose enabling condition does not hold — an open
event without a connecting socket, a close event without an outstanding socket,
the firing of a timer that is not pending — is a no-op. -/
def stepEv (s : SessionState) (e : SessionEv) : SessionState :=
  match e with
  | .connectCall => connectFn s
  | .cleanupCall => cleanupFn s
  | .openEvt => if s.transport = .connecting then onOpenFn s else s
  | .closeEvt =>
      if s.transport = .connecting ∨ s.transport = .opened ∨ s.transport = .closing
      then onCloseFn s else s
  | .fire t =>
      if s.pending.contains t then timerFireFn { s with pending := s.pending.erase t }
      else s

/-- Run of a sequence of events, oldest first. -/
def runEvs (s : SessionState) (evs : List SessionEv) : SessionState :=
  evs.foldl stepEv s

/-- Fresh session state, as on mount before the initial `connect()`. -/
def initSession : SessionState :=
  { retryCount := 0, pending := [], stored := none, nextId := 0,
    intentionalClose := false, transport := .vacant, attempts := 0, delays := [] }

/-- Event sequences issued by the runtime alone, with no further calls from the
owning component. -/
def envOnly (evs : List SessionEv) : Prop :=
  ∀ e ∈ evs, e ≠ SessionEv.connectCall ∧ e ≠ SessionEv.cleanupCall

/-- The scenario in which every connection attempt fails: the mount connect and
five fired retries, each attempt followed by an unintentional close. -/
def failScript : List SessionEv :=
  [.connectCall, .closeEvt, .fire 0, .closeEvt, .fire 1, .closeEvt, .fire 2,
   .closeEvt, .fire 3, .closeEvt, .fire 4, .closeEvt]

/-- Inductive session invariant: every pending timer is the stored one, at most
one timer is pending, and a timer can be pending only while the transport sits
in the closed state that scheduled it. -/
def SessionInv (s : SessionState) : Prop :=
  (∀ t ∈ s.pending, s.stored = some t) ∧ s.pending.length ≤ 1 ∧
    (s.pending ≠ [] → s.transport = .closed)

/-- State of a session after explicit teardown, relative to the attempt count
`a` it had: the next closure is marked intentional, no timer is pending, no
socket is connecting or open, and no further socket has been constructed. -/
def Quiescent (a : Nat) (s : SessionState) : Prop :=
  s.intentionalClose = true ∧ s.pending = [] ∧
    s.transport ≠ Transport.connecting ∧ s.transport ≠ Transport.opened ∧
    s.attempts = a

/-- Phase of one WebSocket object created by the hook. -/
inductive SockPhase
  | connecting
  | opened
  | closing
  | closed
deriving DecidableEq, Repr

/-- State of one `useWebSocket` hook instance in which several socket objects
can be outstanding at once, as in the source: a groupId change runs the effect
cleanup (which calls `close()` on the old socket and nulls `ws.current`) and
then `connect()` synchronously, while the superseded socket's onclose handler
stays registered and still runs against the shared refs when its close event
is finally delivered. Sockets are numbered by creation order — `sockets` holds
the phase of the k-th socket at position k — and `current` is `ws.current`.
The shared refs `retryCount`, `pending`/`stored` for the retry timers (as in
`SessionState`) and `intentionalClose` are common to all sockets of the
instance. -/
structure HookState where
  retryCount : Nat
  pending : List Nat
  stored : Option Nat
  nextTimer : Nat
  intentionalClose : Bool
  sockets : List SockPhase
  current : Option Nat
  attempts : Nat
deriving DecidableEq, Repr

/-- Timer clearing on the shared refs, as in `clearRetryTimer`: cancel the
stored handle if any and null it. -/
def hClearTimer (s : HookState) : HookState :=
  match s.stored with
  | some t => { s with pending := s.pending.erase t, stored := none }
  | none => s

/-- Guard of `connect` at use-websocket.ts line 29: `ws.current` is non-null
and its readyState is OPEN or CONNECTING. -/
def currentBusy (s : HookState) : Bool :=
  match s.current with
  | some k =>
      s.sockets[k]? == some SockPhase.connecting ||
        s.sockets[k]? == some SockPhase.opened
  | none => false

/-- Embeds `connect` on the multi-socket state: clear any stored timer; if the
current socket is OPEN or CONNECTING do nothing more; otherwise reset
`intentionalClose` and construct a fresh socket, which becomes `ws.current`. -/
def hConnect (s : HookState) : HookState :=
  if currentBusy (hClearTimer s) then hClearTimer s
  else { (hClearTimer s) with
         intentionalClose := false,
         sockets := (hClearTimer s).sockets ++ [SockPhase.connecting],
         current := some (hClearTimer s).sockets.length,
         attempts := (hClearTimer s).attempts + 1 }

/-- Socket `k`'s onopen handler running against the shared refs (lines 40-52):
reset the retry counter and clear any stored timer. -/
def hOnOpen (s : HookState) (k : Nat) : HookState :=
  hClearTimer { s with sockets := s.sockets.set k SockPhase.opened,
                       retryCount := 0 }

/-- Socket `k`'s onclose handler running against the shared refs (lines
54-71). Note that scheduling assigns `retryTimer.current` at line 63 without
clearing a previously stored timer first. -/
def hOnClose (s : HookState) (k : Nat) : HookState :=
  if s.intentionalClose then
    { s with sockets := s.sockets.set k SockPhase.closed }
  else if s.retryCount < MAX_RETRIES then
    { s with sockets := s.sockets.set k SockPhase.closed,
             pending := s.pending ++ [s.nextTimer],
             stored := some s.nextTimer,
             nextTimer := s.nextTimer + 1 }
  else { s with sockets := s.sockets.set k SockPhase.closed }

/-- The `ws.current.close(); ws.current = null` pair of the effect cleanup:
close() moves a CONNECTING or OPEN socket to CLOSING and is a no-op on a
closed one; the ref is nulled either way. -/
def closeCurrent (s : HookState) : HookState :=
  match s.current with
  | some k =>
      { s with
        sockets :=
          if s.sockets[k]? == some SockPhase.connecting ||
              s.sockets[k]? == some SockPhase.opened
          then s.sockets.set k SockPhase.closing else s.sockets,
        current := none }
  | none => s

/-- The effect cleanup (lines 94-106) on the multi-socket state: mark the next
closure intentional, cancel any stored timer, close and release the current
socket, reset the retry counter. -/
def hCleanup (s : HookState) : HookState :=
  { closeCurrent (hClearTimer { s with intentionalClose := true }) with
    retryCount := 0 }

/-- Events of one hook instance: the two component calls and the runtime
callbacks, the latter naming the socket or timer they belong to. -/
inductive HookEv
  | connectCall
  | cleanupCall
  | openEvt (k : Nat)
  | closeEvt (k : Nat)
  | fire (t : Nat)
deriving DecidableEq, Repr

/-- One event step on the multi-socket state; an event whose enabling
condition fails is a no-op. A close event is enabled for any socket that has
not yet delivered its close event — including a socket superseded by a
cleanup-then-connect, whose handler is still registered. -/
def hStep (s : HookState) (e : HookEv) : HookState :=
  match e with
  | .connectCall => hConnect s
  | .cleanupCall => hCleanup s
  | .openEvt k =>
      if s.sockets[k]? == some SockPhase.connecting then hOnOpen s k else s
  | .closeEvt k =>
      if s.sockets[k]? == some SockPhase.connecting ||
          s.sockets[k]? == some SockPhase.opened ||
          s.sockets[k]? == some SockPhase.closing
      then hOnClose s k else s
  | .fire t =>
      if s.pending.contains t
      then hConnect { s with pending := s.pending.erase t,
                             retryCount := s.retryCount + 1 }
      else s

/-- Run of a sequence of hook events, oldest first. -/
def hRun (s : HookState) (evs : List HookEv) : HookState :=
  evs.foldl hStep s

/-- Fresh hook state, as on mount before the initial `connect()`. -/
def initHook : HookState :=
  { retryCount := 0, pending := [], stored := none, nextTimer := 0,
    intentionalClose := false, sockets := [], current := none, attempts := 0 }

/-- Inductive invariant of cleanup-free runs of a hook instance: every pending
timer is the stored one, at most one is pending and only while every socket
has closed; a socket that has not closed is the current one; and no socket is
half closed (CLOSING arises only from cleanup). -/
def HookInv (s : HookState) : Prop :=
  (∀ t ∈ s.pending, s.stored = some t) ∧ s.pending.length ≤ 1 ∧
    (s.pending ≠ [] → ∀ ph ∈ s.sockets, ph = SockPhase.closed) ∧
    (∀ k : Nat, ∀ ph : SockPhase, s.sockets[k]? = some ph →
      s.current = some k ∨ ph = SockPhase.closed) ∧
    (∀ ph ∈ s.sockets, ph ≠ SockPhase.closing)

/-- Inbound client-to-server frame after JSON parsing (routes.ts lines 34-47);
`none` models data whose parse failed and was logged. -/
structure JoinFrame where
  type : String
  groupId : Option String
deriving DecidableEq, Repr

/-- Truthiness of the `groupId` field in the guard at routes.ts line 37:
present and not the empty string. -/
def truthyGroupId : Option String → Bool
  | none => false
  | some g => g != ""

/-- Embeds the per-connection message handler of routes.ts lines 34-47: a
`join_group` frame with a truthy groupId overwrites the subscription attached
to the socket; every other frame, and unparseable data, leaves it unchanged. -/
def onClientFrame (sub : Option String) (d : Option JoinFrame) : Option String :=
  match d with
  | none => sub
  | some m =>
    if m.type == "join_group" && truthyGroupId m.groupId then m.groupId else sub

/-- Subscription attached to a socket after its whole inbound history. -/
def subAfter (frames : List (Option JoinFrame)) : Option String :=
  frames.foldl onClientFrame none

/-- The group named by the most recent effective `join_group` declaration in an
inbound history, if any. -/
def latestJoin (frames : List (Option JoinFrame)) : Option String :=
  frames.reverse.findSome? (fun d =>
    match d with
    | some m =>
      if m.type == "join_group" && truthyGroupId m.groupId then m.groupId else none
    | none => none)

/-- One entry of the server `clients` map at broadcast time: its key, whether
`readyState === OPEN` holds, the subscription attached by `join_group`, and
whether a `send` to it would succeed (`false` models a send that throws). -/
structure ServerClient where
  clientId : String
  isOpen : Bool
  groupId : Option String
  sendOk : Bool
deriving DecidableEq, Repr

/-- Guard of the `new_message` fan-out (routes.ts line 195) and of the
`member_joined` and `member_left` fan-outs (lines 498 and 534). -/
def subscribedSelect (g : String) (c : ServerClient) : Bool :=
  c.isOpen && c.groupId == some g

/-- Guard of the `group_created` fan-out (routes.ts line 428): only openness is
checked, the subscription is ignored. -/
def openSelect (c : ServerClient) : Bool := c.isOpen

/-- Connections the `new_message` broadcast of routes.ts lines 192-211 attempts
to send to. -/
def newMessageRecipients (clients : List ServerClient) (g : String) :
    List ServerClient :=
  clients.filter (subscribedSelect g)

/-- Connections the `group_created` broadcast of routes.ts lines 427-434
attempts to send to. -/
def groupCreatedRecipients (clients : List ServerClient) : List ServerClient :=
  clients.filter openSelect

/-- Embeds the execution of the `new_message` fan-out (routes.ts lines
192-211): each send sits in its own try/catch, so iteration always continues.
Returns the ids delivered to and the ids whose send failed and was logged. -/
def runNewMessageBroadcast (clients : List ServerClient) (g : String) :
    List String × List String :=
  clients.foldl
    (fun acc c =>
      if subscribedSelect g c then
        if c.sendOk then (acc.1 ++ [c.clientId], acc.2)
        else (acc.1, acc.2 ++ [c.clientId])
      else acc)
    ([], [])

/-- Embeds the fan-outs that have no per-send try/catch — `group_created`
(routes.ts lines 427-434), `member_joined` (lines 494-505), `member_left`
(lines 531-541) and the custom-group `new_message` (lines 618-628) —
parameterized by their selection guard: a throwing send escapes the `forEach`
into the route handler's outer catch, so no later connection is visited.
Returns the ids delivered before any abort and whether an abort happened. -/
def runUncaughtBroadcast (select : ServerClient → Bool) :
    List ServerClient → List String × Bool
  | [] => ([], false)
  | c :: rest =>
    if select c then
      if c.sendOk then
        let r := runUncaughtBroadcast select rest
        (c.clientId :: r.1, r.2)
      else ([], true)
    else runUncaughtBroadcast select rest

/-- The `group_created` fan-out execution. -/
def runGroupCreatedBroadcast (clients : List ServerClient) : List String × Bool :=
  runUncaughtBroadcast openSelect clients

/-- The `member_joined` fan-out execution. -/
def runMemberJoinedBroadcast (g : String) (clients : List ServerClient) :
    List String × Bool :=
  runUncaughtBroadcast (subscribedSelect g) clients

/-- Concrete messages used by counterexamples and witnesses. -/
def msgA : GroupMeMessage := mkMsg (some "a") (some 100)

/-- Second message sharing the timestamp of `msgA`. -/
def msgB : GroupMeMessage := mkMsg (some "b") (some 100)

/-- Third message, at a later timestamp. -/
def msgC : GroupMeMessage := mkMsg (some "c") (some 200)

/-- Fourth message, sharing the timestamp of `msgC`. -/
def msgD : GroupMeMessage := mkMsg (some "d") (some 200)

/-- A well-formed message used as pre-existing cache content. -/
def msgM1 : GroupMeMessage := mkMsg (some "m1") (some 5)

/-- A malformed message: no identifier and no creation timestamp. -/
def msgNoId : GroupMeMessage := mkMsg none none

/-! Theorems. First the merge cache: helper lemmas shared by several claims,
then the claim theorems. -/

theorem applyDelta_mem_id (c : List GroupMeMessage) (m : GroupMeMessage) :
    (applyDelta c m).any (fun msg => msg.id == m.id) = true := by
  unfold applyDelta
  split
  · assumption
  · simp

theorem applyDelta_of_mem (c : List GroupMeMessage) (m : GroupMeMessage)
    (h : c.any (fun msg => msg.id == m.id) = true) : applyDelta c m = c := by
  unfold applyDelta
  simp [h]

theorem applyDelta_idem (c : List GroupMeMessage) (m : GroupMeMessage) :
    applyDelta (applyDelta c m) m = applyDelta c m :=
  applyDelta_of_mem _ _ (applyDelta_mem_id c m)

theorem applyOps_mix (m : GroupMeMessage) (s : List GroupMeMessage)
    (hs : s.any (fun x => x.id == m.id) = true) (c : List GroupMeMessage) :
    ∀ ops : List MergeOp,
      (∀ op ∈ ops, op = MergeOp.delta m ∨ op = MergeOp.snapshot s) →
      ∀ x, (x = applyDelta c m ∨ x = s) →
        (applyOps x ops = applyDelta c m ∨ applyOps x ops = s) := by
  intro ops
  induction ops with
  | nil => intro _ x hx; simpa [applyOps] using hx
  | cons op rest ih =>
    intro hall x hx
    have hop := hall op (by simp)
    have hrest : ∀ o ∈ rest, o = MergeOp.delta m ∨ o = MergeOp.snapshot s :=
      fun o ho => hall o (by simp [ho])
    have hstep : applyOp x op = applyDelta c m ∨ applyOp x op = s := by
      rcases hop with h | h <;> subst h
      · rcases hx with h | h
        · rw [h]; exact Or.inl (applyDelta_idem c m)
        · rw [h]; exact Or.inr (applyDelta_of_mem s m hs)
      · exact Or.inr rfl
    exact ih hrest _ hstep

/-- C1: Merge idempotence — any nonempty mix of delta applications of `m` and
snapshot applications of a snapshot containing `m` yields the same cache as a
single application of one of the two paths, and after one delta carrying `m`
plus one snapshot containing `m` (in either order) the cache holds exactly one
entry whose identifier equals the identifier of `m`. -/
theorem merge_idempotent (m : GroupMeMessage) (s c : List GroupMeMessage)
    (ops : List MergeOp) (hne : ops ≠ [])
    (hall : ∀ op ∈ ops, op = MergeOp.delta m ∨ op = MergeOp.snapshot s)
    (hs : s.any (fun x => x.id == m.id) = true)
    (hcount : countId s m.id = 1) :
    (applyOps c ops = applyDelta c m ∨ applyOps c ops = applySnapshot c s) ∧
      countId (applyOps c [MergeOp.delta m, MergeOp.snapshot s]) m.id = 1 ∧
      countId (applyOps c [MergeOp.snapshot s, MergeOp.delta m]) m.id = 1 := by
  refine ⟨?_, hcount, ?_⟩
  · match ops, hne with
    | op :: rest, _ =>
      have hop := hall op (by simp)
      have hrest : ∀ o ∈ rest, o = MergeOp.delta m ∨ o = MergeOp.snapshot s :=
        fun o ho => hall o (by simp [ho])
      have hx : applyOp c op = applyDelta c m ∨ applyOp c op = s := by
        rcases hop with h | h <;> subst h
        · exact Or.inl rfl
        · exact Or.inr rfl
      exact applyOps_mix m s hs c rest hrest _ hx
  · have h1 : applyOps c [MergeOp.snapshot s, MergeOp.delta m] = applyDelta s m := rfl
    rw [h1, applyDelta_of_mem s m hs]
    exact hcount

/-- Witness for `merge_idempotent` at concrete inputs. -/
theorem merge_idempotent_witness :
    (applyOps [] [MergeOp.delta msgM1] = applyDelta [] msgM1 ∨
      applyOps [] [MergeOp.delta msgM1] = applySnapshot [] [msgM1]) ∧
      countId (applyOps [] [MergeOp.delta msgM1, MergeOp.snapshot [msgM1]]) msgM1.id = 1 ∧
      countId (applyOps [] [MergeOp.snapshot [msgM1], MergeOp.delta msgM1]) msgM1.id = 1 :=
  merge_idempotent msgM1 [msgM1] [] [MergeOp.delta msgM1] (by decide)
    (by decide) (by decide) (by decide)

/-- C3 counterexample: the message `msgA` was delivered by the push path and
sits in the cache, yet applying a snapshot that omits it removes it from the
cache — the snapshot path is not insert-only. -/
theorem snapshot_omission_erases :
    msgA ∈ applyDelta [] msgA ∧ msgA ∉ applySnapshot (applyDelta [] msgA) [] := by
  decide

/-- C3 (amended): applying a snapshot replaces the conversation's cached
sequence with the snapshot's contents — every snapshot message is present
afterwards, and a cached message whose identifier the snapshot omits is
removed rather than retained. -/
theorem snapshot_replaces (c s : List GroupMeMessage) :
    applySnapshot c s = s ∧
      (∀ m ∈ s, m ∈ applySnapshot c s) ∧
      (∀ m ∈ c, m.id ∉ s.map GroupMeMessage.id → m ∉ applySnapshot c s) := by
  refine ⟨rfl, fun m hm => hm, fun m _ hid hmem => ?_⟩
  exact hid (List.mem_map_of_mem _ hmem)

/-- Witness for `snapshot_replaces` at concrete inputs. -/
theorem snapshot_replaces_witness :
    applySnapshot [msgM1] [msgB] = [msgB] ∧
      msgB ∈ applySnapshot [msgM1] [msgB] ∧
      msgM1 ∉ applySnapshot [msgM1] [msgB] :=
  ⟨(snapshot_replaces [msgM1] [msgB]).1,
   (snapshot_replaces [msgM1] [msgB]).2.1 msgB (by decide),
   (snapshot_replaces [msgM1] [msgB]).2.2 msgM1 (by decide) (by decide)⟩

/-! Sorting: stability and order lemmas for the render sort. -/

theorem mem_sortInsert (m y : GroupMeMessage) :
    ∀ l, y ∈ sortInsert m l ↔ y = m ∨ y ∈ l := by
  intro l
  induction l with
  | nil => simp [sortInsert]
  | cons x xs ih =>
    simp only [sortInsert]
    split
    · rw [List.mem_cons, List.mem_cons, ih]
      tauto
    · simp only [List.mem_cons]

theorem pairwise_sortInsert (m : GroupMeMessage) :
    ∀ l, l.Pairwise (fun a b => msgTime a ≤ msgTime b) →
      (sortInsert m l).Pairwise (fun a b => msgTime a ≤ msgTime b) := by
  intro l
  induction l with
  | nil => intro _; simp [sortInsert]
  | cons x xs ih =>
    intro hp
    rw [List.pairwise_cons] at hp
    obtain ⟨hx, hxs⟩ := hp
    simp only [sortInsert]
    split
    · rename_i hle
      simp only [msgLe, decide_eq_true_eq] at hle
      rw [List.pairwise_cons]
      refine ⟨fun y hy => ?_, ih hxs⟩
      rcases (mem_sortInsert m y xs).1 hy with rfl | hyx
      · exact hle
      · exact hx y hyx
    · rename_i hle
      simp only [msgLe, decide_eq_true_eq] at hle
      rw [List.pairwise_cons]
      refine ⟨fun y hy => ?_, List.pairwise_cons.2 ⟨hx, hxs⟩⟩
      rcases List.mem_cons.1 hy with rfl | hyx
      · omega
      · have h1 := hx y hyx
        omega

theorem pairwise_sortedAux :
    ∀ (l acc : List GroupMeMessage),
      acc.Pairwise (fun a b => msgTime a ≤ msgTime b) →
      (l.foldl (fun acc m => sortInsert m acc) acc).Pairwise
        (fun a b => msgTime a ≤ msgTime b) := by
  intro l
  induction l with
  | nil => intro acc h; simpa using h
  | cons m rest ih => intro acc h; exact ih _ (pairwise_sortInsert m acc h)

theorem pairwise_sortedMessages (l : List GroupMeMessage) :
    (sortedMessages l).Pairwise (fun a b => msgTime a ≤ msgTime b) :=
  pairwise_sortedAux l [] (by simp)

theorem filter_sortInsert (t : Int) (m : GroupMeMessage) :
    ∀ l, l.Pairwise (fun a b => msgTime a ≤ msgTime b) →
      (sortInsert m l).filter (fun x => msgTime x == t) =
        l.filter (fun x => msgTime x == t) ++
          [m].filter (fun x => msgTime x == t) := by
  intro l
  induction l with
  | nil => intro _; simp [sortInsert]
  | cons x xs ih =>
    intro hp
    rw [List.pairwise_cons] at hp
    obtain ⟨hx, hxs⟩ := hp
    simp only [sortInsert]
    split
    · rename_i hle
      rw [List.filter_cons, List.filter_cons, ih hxs]
      split
      · rw [List.cons_append]
      · rfl
    · rename_i hle
      simp only [msgLe, decide_eq_true_eq] at hle
      by_cases hpm : (msgTime m == t) = true
      · have hmt : msgTime m = t := by simpa using hpm
        have hnil : (x :: xs).filter (fun y => msgTime y == t) = [] := by
          rw [List.filter_eq_nil_iff]
          intro a ha
          rcases List.mem_cons.1 ha with rfl | haxs
          · simp
            omega
          · have h1 := hx a haxs
            simp
            omega
        rw [hnil]
        simp [List.filter_cons, hpm, hnil]
      · have hpm' : (msgTime m == t) = false := by
          simpa using hpm
        simp [List.filter_cons, hpm']

theorem filter_sortedAux (t : Int) :
    ∀ (l acc : List GroupMeMessage),
      acc.Pairwise (fun a b => msgTime a ≤ msgTime b) →
      (l.foldl (fun acc m => sortInsert m acc) acc).filter
          (fun x => msgTime x == t) =
        acc.filter (fun x => msgTime x == t) ++
          l.filter (fun x => msgTime x == t) := by
  intro l
  induction l with
  | nil => intro acc _; simp
  | cons m rest ih =>
    intro acc h
    have h2 := pairwise_sortInsert m acc h
    have hfold : List.foldl (fun acc m => sortInsert m acc) acc (m :: rest) =
        List.foldl (fun acc m => sortInsert m acc) (sortInsert m acc) rest := rfl
    rw [hfold, ih _ h2, filter_sortInsert t m acc h, List.append_assoc]
    congr 1
    cases hpm : (msgTime m == t) <;> simp [List.filter_cons, hpm]

theorem filter_sortedMessages (l : List GroupMeMessage) (t : Int) :
    (sortedMessages l).filter (fun x => msgTime x == t) =
      l.filter (fun x => msgTime x == t) := by
  have h := filter_sortedAux t l [] (by simp)
  simpa [sortedMessages] using h

/-- C4 counterexample: the cache reached by pushing `msgB, msgA, msgC, msgD`
(two timestamp ties, arriving in identifier order b before a, then c before d)
renders in stable input order, which at equal timestamps is ordered neither by
ascending nor by descending identifier (identifier order taken lexicographic on
the characters) — the sort has no identifier tiebreak. -/
theorem sorted_tiebreak_cex :
    ¬ List.Chain'
        (fun x y => msgTime x ≤ msgTime y ∧
          (msgTime x = msgTime y → (x.id.getD "").toList ≤ (y.id.getD "").toList))
        (sortedMessages (applyOps []
          [MergeOp.delta msgB, MergeOp.delta msgA, MergeOp.delta msgC,
           MergeOp.delta msgD])) ∧
      ¬ List.Chain'
        (fun x y => msgTime x ≤ msgTime y ∧
          (msgTime x = msgTime y → (y.id.getD "").toList ≤ (x.id.getD "").toList))
        (sortedMessages (applyOps []
          [MergeOp.delta msgB, MergeOp.delta msgA, MergeOp.delta msgC,
           MergeOp.delta msgD])) := by
  have hsort : sortedMessages (applyOps []
      [MergeOp.delta msgB, MergeOp.delta msgA, MergeOp.delta msgC,
       MergeOp.delta msgD]) = [msgB, msgA, msgC, msgD] := by decide
  constructor
  · rw [hsort]
    intro h
    have h1 := (List.chain'_cons.1 h).1
    have h2 := h1.2 (by decide)
    exact absurd h2 (by decide)
  · rw [hsort]
    intro h
    have h1 := (List.chain'_cons.1 ((List.chain'_cons.1 h).2)).2
    have h3 := (List.chain'_cons.1 h1).1
    have h2 := h3.2 (by decide)
    exact absurd h2 (by decide)

/-- C4 (amended): the rendered sequence is sorted non-decreasing by creation
timestamp for every adjacent pair, and messages with equal creation timestamps
are not reordered by identifier — the stable sort keeps them in the order the
cache holds them, so for every timestamp the rendered subsequence at that
timestamp equals the cache's subsequence at it. -/
theorem sorted_order_stable (l : List GroupMeMessage) :
    List.Chain' (fun a b => msgTime a ≤ msgTime b) (sortedMessages l) ∧
      ∀ t : Int, (sortedMessages l).filter (fun x => msgTime x == t) =
        l.filter (fun x => msgTime x == t) :=
  ⟨(pairwise_sortedMessages l).chain', fun t => filter_sortedMessages l t⟩

/-- C8 counterexample: a parsed `new_message` delta whose message object lacks
both identifier and creation timestamp is not rejected by the merge path — it
is appended to the conversation's cached sequence, which therefore changes. -/
theorem malformed_inserted_cex :
    processInbound "g1" [msgM1]
        (RawInbound.wellFormed ⟨"new_message", some "g1", some msgNoId⟩) =
      [msgM1, msgNoId] ∧ [msgM1, msgNoId] ≠ [msgM1] := by
  decide

/-- C8 (amended): an inbound frame that fails JSON parsing is dropped and
logged and leaves the cached sequence unchanged, as does a parsed `new_message`
event with no message payload; but a parsed delta whose message object is
present is inserted even when its identifier and creation timestamp are both
missing, subject only to the identifier duplicate check. -/
theorem malformed_handling (selected : String) (cache : List GroupMeMessage) :
    processInbound selected cache RawInbound.malformed = cache ∧
      (∀ t g, processInbound selected cache
        (RawInbound.wellFormed ⟨t, g, none⟩) = cache) ∧
      (∀ m : GroupMeMessage, cache.any (fun x => x.id == m.id) = false →
        processInbound selected cache
            (RawInbound.wellFormed ⟨"new_message", some selected, some m⟩) =
          cache ++ [m]) := by
  refine ⟨rfl, fun t g => rfl, fun m hm => ?_⟩
  simp [processInbound, onMessageHandler, chatAreaNewMessageEffect, applyDelta, hm]

/-- Witness for `malformed_handling` at concrete inputs. -/
theorem malformed_handling_witness :
    processInbound "g1" [msgM1] RawInbound.malformed = [msgM1] ∧
      processInbound "g1" [msgM1]
          (RawInbound.wellFormed ⟨"new_message", some "g1", none⟩) = [msgM1] ∧
      processInbound "g1" [msgM1]
          (RawInbound.wellFormed ⟨"new_message", some "g1", some msgNoId⟩) =
        [msgM1] ++ [msgNoId] :=
  ⟨(malformed_handling "g1" [msgM1]).1,
   (malformed_handling "g1" [msgM1]).2.1 "new_message" (some "g1"),
   (malformed_handling "g1" [msgM1]).2.2 msgNoId (by decide)⟩

/-! Session state machine: timer and teardown lemmas. -/

theorem clearRetryTimer_pending_nil (s : SessionState)
    (h1 : ∀ t ∈ s.pending, s.stored = some t) (h2 : s.pending.length ≤ 1) :
    (clearRetryTimer s).pending = [] := by
  cases hs : s.stored with
  | none =>
    cases hp : s.pending with
    | nil => simp [clearRetryTimer, hs, hp]
    | cons a l =>
      have ha := h1 a (by rw [hp]; exact List.mem_cons_self a l)
      rw [hs] at ha
      cases ha
  | some t0 =>
    simp only [clearRetryTimer, hs]
    cases hp : s.pending with
    | nil => simp [hp]
    | cons a l =>
      have ha := h1 a (by rw [hp]; exact List.mem_cons_self a l)
      rw [hs] at ha
      have hat : t0 = a := by injection ha
      rw [hp] at h2
      simp only [List.length_cons] at h2
      have hl : l = [] := List.length_eq_zero.1 (by omega)
      subst hat hl
      exact List.erase_cons_head t0 []

theorem connectFn_pending_nil (s : SessionState)
    (h1 : ∀ t ∈ s.pending, s.stored = some t) (h2 : s.pending.length ≤ 1) :
    (connectFn s).pending = [] := by
  have hc := clearRetryTimer_pending_nil s h1 h2
  unfold connectFn
  split
  · exact hc
  · simpa using hc

theorem sessionInv_of_pending_nil (s : SessionState) (h : s.pending = []) :
    SessionInv s :=
  ⟨by simp [h], by simp [h], by simp [h]⟩

theorem onOpenFn_pending_nil (s : SessionState) (h : s.pending = []) :
    (onOpenFn s).pending = [] := by
  unfold onOpenFn clearRetryTimer
  cases hs : s.stored <;> simp [hs, h]

theorem pending_singleton (s : SessionState) (t : Nat)
    (h2 : s.pending.length ≤ 1) (ht : t ∈ s.pending) : s.pending = [t] := by
  cases hp : s.pending with
  | nil => rw [hp] at ht; cases ht
  | cons a l =>
    rw [hp] at h2 ht
    simp only [List.length_cons] at h2
    have hl : l = [] := List.length_eq_zero.1 (by omega)
    subst hl
    simp only [List.mem_singleton] at ht
    subst ht
    rfl

theorem sessionInv_step (s : SessionState) (e : SessionEv) (h : SessionInv s) :
    SessionInv (stepEv s e) := by
  obtain ⟨h1, h2, h3⟩ := h
  cases e with
  | connectCall =>
    exact sessionInv_of_pending_nil _ (connectFn_pending_nil s h1 h2)
  | cleanupCall =>
    apply sessionInv_of_pending_nil
    show (cleanupFn s).pending = []
    have hc : (clearRetryTimer { s with intentionalClose := true }).pending = [] :=
      clearRetryTimer_pending_nil { s with intentionalClose := true } h1 h2
    unfold cleanupFn
    split
    · simpa using hc
    · simpa using hc
  | openEvt =>
    simp only [stepEv]
    split
    · rename_i ht
      have hp : s.pending = [] := by
        by_contra hne
        rw [h3 hne] at ht
        cases ht
      exact sessionInv_of_pending_nil _ (onOpenFn_pending_nil s hp)
    · exact ⟨h1, h2, h3⟩
  | closeEvt =>
    simp only [stepEv]
    split
    · rename_i ht
      have hp : s.pending = [] := by
        by_contra hne
        rw [h3 hne] at ht
        rcases ht with ht | ht | ht <;> cases ht
      unfold onCloseFn
      split
      · exact sessionInv_of_pending_nil _ (by simpa using hp)
      · split
        · refine ⟨?_, ?_, ?_⟩ <;> simp [hp]
        · exact sessionInv_of_pending_nil _ (by simpa using hp)
    · exact ⟨h1, h2, h3⟩
  | fire t =>
    simp only [stepEv]
    split
    · rename_i hin
      have ht : t ∈ s.pending := by simpa using hin
      have hp : s.pending = [t] := pending_singleton s t h2 ht
      apply sessionInv_of_pending_nil
      show (timerFireFn { s with pending := s.pending.erase t }).pending = []
      unfold timerFireFn
      apply connectFn_pending_nil
      · intro x hx
        have hx2 : x ∈ s.pending.erase t := hx
        rw [hp] at hx2
        rw [List.erase_cons_head] at hx2
        cases hx2
      · show (s.pending.erase t).length ≤ 1
        rw [hp, List.erase_cons_head]
        simp
    · exact ⟨h1, h2, h3⟩

theorem sessionInv_run (s : SessionState) (h : SessionInv s) :
    ∀ evs : List SessionEv, SessionInv (runEvs s evs) := by
  intro evs
  induction evs generalizing s with
  | nil => exact h
  | cons e rest ih => exact ih _ (sessionInv_step s e h)

theorem clearRetryTimer_transport (s : SessionState) :
    (clearRetryTimer s).transport = s.transport := by
  unfold clearRetryTimer
  cases hs : s.stored <;> simp [hs]

theorem clearRetryTimer_retryCount (s : SessionState) :
    (clearRetryTimer s).retryCount = s.retryCount := by
  unfold clearRetryTimer
  cases hs : s.stored <;> simp [hs]

theorem clearRetryTimer_intentionalClose (s : SessionState) :
    (clearRetryTimer s).intentionalClose = s.intentionalClose := by
  unfold clearRetryTimer
  cases hs : s.stored <;> simp [hs]

theorem clearRetryTimer_attempts (s : SessionState) :
    (clearRetryTimer s).attempts = s.attempts := by
  unfold clearRetryTimer
  cases hs : s.stored <;> simp [hs]

theorem connectFn_retryCount (s : SessionState) :
    (connectFn s).retryCount = s.retryCount := by
  unfold connectFn
  split
  · exact clearRetryTimer_retryCount s
  · exact clearRetryTimer_retryCount s

theorem stuck_step (s : SessionState) (ht : s.transport = Transport.closed)
    (hp : s.pending = []) (e : SessionEv)
    (he : e ≠ SessionEv.connectCall ∧ e ≠ SessionEv.cleanupCall) :
    stepEv s e = s := by
  cases e with
  | connectCall => exact absurd rfl he.1
  | cleanupCall => exact absurd rfl he.2
  | openEvt => simp [stepEv, ht]
  | closeEvt => simp [stepEv, ht]
  | fire t => simp [stepEv, hp]

theorem stuck_run (s : SessionState) (ht : s.transport = Transport.closed)
    (hp : s.pending = []) :
    ∀ evs : List SessionEv, envOnly evs → runEvs s evs = s := by
  intro evs
  induction evs with
  | nil => intro _; rfl
  | cons e rest ih =>
    intro henv
    have hone : runEvs s (e :: rest) = runEvs (stepEv s e) rest := rfl
    rw [hone, stuck_step s ht hp e (henv e (by simp))]
    exact ih (fun x hx => henv x (by simp [hx]))

theorem cleanupFn_quiescent (s : SessionState)
    (h1 : ∀ t ∈ s.pending, s.stored = some t) (h2 : s.pending.length ≤ 1) :
    Quiescent s.attempts (cleanupFn s) := by
  have hp : (clearRetryTimer { s with intentionalClose := true }).pending = [] :=
    clearRetryTimer_pending_nil { s with intentionalClose := true } h1 h2
  have hi := clearRetryTimer_intentionalClose { s with intentionalClose := true }
  have ha := clearRetryTimer_attempts { s with intentionalClose := true }
  unfold cleanupFn
  split
  · exact ⟨hi, hp, by simp, by simp, ha⟩
  · rename_i hcond
    push_neg at hcond
    exact ⟨hi, hp, hcond.1, hcond.2, ha⟩

theorem quiescent_step (a : Nat) (s : SessionState) (e : SessionEv)
    (he : e ≠ SessionEv.connectCall ∧ e ≠ SessionEv.cleanupCall)
    (h : Quiescent a s) : Quiescent a (stepEv s e) := by
  obtain ⟨hi, hp, hc, ho, ha⟩ := h
  cases e with
  | connectCall => exact absurd rfl he.1
  | cleanupCall => exact absurd rfl he.2
  | openEvt =>
    simp only [stepEv]
    split
    · rename_i ht; exact absurd ht hc
    · exact ⟨hi, hp, hc, ho, ha⟩
  | closeEvt =>
    simp only [stepEv]
    split
    · have hcl : onCloseFn s = { s with transport := Transport.closed } := by
        unfold onCloseFn
        rw [if_pos hi]
      rw [hcl]
      exact ⟨hi, hp, by simp, by simp, ha⟩
    · exact ⟨hi, hp, hc, ho, ha⟩
  | fire t =>
    simp only [stepEv, hp, List.contains_nil, Bool.false_eq_true, if_false]
    exact ⟨hi, hp, hc, ho, ha⟩

theorem quiescent_run (a : Nat) :
    ∀ evs : List SessionEv, envOnly evs → ∀ s : SessionState, Quiescent a s →
      Quiescent a (runEvs s evs) := by
  intro evs
  induction evs with
  | nil => intro _ s h; exact h
  | cons e rest ih =>
    intro henv s h
    have hone : runEvs s (e :: rest) = runEvs (stepEv s e) rest := rfl
    rw [hone]
    exact ih (fun x hx => henv x (by simp [hx])) _
      (quiescent_step a s e (henv e (by simp)) h)

/-- C6: Explicit teardown cancels any pending retry timer, closes an
outstanding transport, and suppresses reconnection: under runtime events alone
no timer is ever pending again and the number of constructed sockets never
increases, so no reconnect attempt is made within or after the original delay
window. -/
theorem teardown_no_reconnect (s : SessionState) (hInv : SessionInv s) :
    (cleanupFn s).pending = [] ∧
      ((s.transport = Transport.connecting ∨ s.transport = Transport.opened) →
        (cleanupFn s).transport = Transport.closing) ∧
      (∀ evs : List SessionEv, envOnly evs →
        (runEvs (cleanupFn s) evs).attempts = s.attempts ∧
        (runEvs (cleanupFn s) evs).pending = []) := by
  obtain ⟨h1, h2, _⟩ := hInv
  have hq := cleanupFn_quiescent s h1 h2
  refine ⟨hq.2.1, ?_, fun evs henv => ?_⟩
  · intro ht
    unfold cleanupFn
    split
    · rfl
    · rename_i hcond
      rw [clearRetryTimer_transport] at hcond
      exact absurd ht hcond
  · have hr := quiescent_run s.attempts evs henv (cleanupFn s) hq
    exact ⟨hr.2.2.2.2, hr.2.1⟩

/-- Witness for `teardown_no_reconnect` at a concrete post-failure state. -/
theorem teardown_no_reconnect_witness :
    (cleanupFn (runEvs initSession [SessionEv.connectCall, SessionEv.closeEvt])).pending = [] ∧
      (runEvs (cleanupFn (runEvs initSession [SessionEv.connectCall, SessionEv.closeEvt]))
          [SessionEv.closeEvt, SessionEv.fire 0]).attempts =
        (runEvs initSession [SessionEv.connectCall, SessionEv.closeEvt]).attempts ∧
      (runEvs (cleanupFn (runEvs initSession [SessionEv.connectCall, SessionEv.closeEvt]))
          [SessionEv.closeEvt, SessionEv.fire 0]).pending = [] :=
  have h := teardown_no_reconnect
    (runEvs initSession [SessionEv.connectCall, SessionEv.closeEvt])
    ⟨by decide, by decide, by decide⟩
  ⟨h.1, (h.2.2 [SessionEv.closeEvt, SessionEv.fire 0] (by unfold envOnly; decide)).1,
    (h.2.2 [SessionEv.closeEvt, SessionEv.fire 0] (by unfold envOnly; decide)).2⟩

/-- C2: Backoff schedule — in the all-failures scenario the successive
scheduled retry delays are exactly 1s, 2s, 4s, 8s, 16s and six sockets are
constructed (the initial connect plus five fired retries); afterwards the
session issues no further connection attempts under runtime events alone.
Moreover the delay equals the base delay times 2 to the retry count, `connect`
itself never changes the retry counter, a fired retry increments it by one,
and a successful open resets it to 0. -/
theorem backoff_schedule :
    (runEvs initSession failScript).delays = [1000, 2000, 4000, 8000, 16000] ∧
      (runEvs initSession failScript).attempts = 6 ∧
      (∀ evs : List SessionEv, envOnly evs →
        runEvs (runEvs initSession failScript) evs = runEvs initSession failScript) ∧
      (∀ n : Nat, retryDelay n = INITIAL_RETRY_DELAY * 2 ^ n) ∧
      (∀ s : SessionState, (connectFn s).retryCount = s.retryCount) ∧
      (∀ (s : SessionState) (t : Nat), s.pending.contains t = true →
        (stepEv s (SessionEv.fire t)).retryCount = s.retryCount + 1) ∧
      (∀ s : SessionState, s.transport = Transport.connecting →
        (stepEv s SessionEv.openEvt).retryCount = 0) := by
  refine ⟨by decide, by decide, ?_, ?_, connectFn_retryCount, ?_, ?_⟩
  · intro evs henv
    exact stuck_run (runEvs initSession failScript) (by decide) (by decide) evs henv
  · intro n
    unfold retryDelay
    exact Nat.mul_comm _ _
  · intro s t hin
    simp only [stepEv, hin, if_true]
    unfold timerFireFn
    rw [connectFn_retryCount]
  · intro s hs
    simp only [stepEv, hs, if_true]
    unfold onOpenFn
    rw [clearRetryTimer_retryCount]

/-- Witness for `backoff_schedule` at concrete inputs. -/
theorem backoff_schedule_witness :
    runEvs (runEvs initSession failScript) [SessionEv.fire 5] =
        runEvs initSession failScript ∧
      retryDelay 3 = INITIAL_RETRY_DELAY * 2 ^ 3 ∧
      (connectFn initSession).retryCount = initSession.retryCount ∧
      (stepEv (runEvs initSession [SessionEv.connectCall, SessionEv.closeEvt])
          (SessionEv.fire 0)).retryCount =
        (runEvs initSession [SessionEv.connectCall, SessionEv.closeEvt]).retryCount + 1 ∧
      (stepEv (runEvs initSession [SessionEv.connectCall]) SessionEv.openEvt).retryCount = 0 :=
  ⟨backoff_schedule.2.2.1 [SessionEv.fire 5] (by unfold envOnly; decide),
   backoff_schedule.2.2.2.1 3,
   backoff_schedule.2.2.2.2.1 initSession,
   backoff_schedule.2.2.2.2.2.1 _ 0 (by decide),
   backoff_schedule.2.2.2.2.2.2 _ (by decide)⟩


/-! Server relay: routing and broadcast lemmas. -/

theorem subAfter_append (fs : List (Option JoinFrame)) (d : Option JoinFrame) :
    subAfter (fs ++ [d]) = onClientFrame (subAfter fs) d := by
  unfold subAfter
  rw [List.foldl_append]
  rfl

theorem subAfter_eq_latestJoin (frames : List (Option JoinFrame)) :
    subAfter frames = latestJoin frames := by
  induction frames using List.reverseRecOn with
  | nil => rfl
  | append_singleton fs d ih =>
    rw [subAfter_append]
    have hrev : (fs ++ [d]).reverse = d :: fs.reverse := by
      rw [List.reverse_append]
      rfl
    match d with
    | none =>
      show subAfter fs = latestJoin (fs ++ [none])
      unfold latestJoin
      rw [hrev, List.findSome?_cons]
      exact ih
    | some m =>
      by_cases hc : (m.type == "join_group" && truthyGroupId m.groupId) = true
      · obtain ⟨g, hg⟩ : ∃ g, m.groupId = some g := by
          cases hmg : m.groupId with
          | none =>
            rw [hmg] at hc
            simp [truthyGroupId] at hc
          | some g => exact ⟨g, rfl⟩
        show onClientFrame (subAfter fs) (some m) = latestJoin (fs ++ [some m])
        unfold onClientFrame latestJoin
        rw [hrev, List.findSome?_cons]
        have hc2 : (m.type == "join_group" && truthyGroupId (some g)) = true := by
          rw [← hg]
          exact hc
        simp [hg, hc2]
      · have hc' : (m.type == "join_group" && truthyGroupId m.groupId) = false := by
          simpa using hc
        show onClientFrame (subAfter fs) (some m) = latestJoin (fs ++ [some m])
        unfold onClientFrame latestJoin
        rw [hrev, List.findSome?_cons]
        simp only [hc', Bool.false_eq_true, if_false]
        exact ih

/-- C5: Routing exactness — a connection is among the connections the
`new_message` broadcast for conversation `g` sends to exactly when it is
currently open and the most recent effective `join_group` declaration in its
inbound history named `g`; so a connection whose latest join named another
conversation receives nothing. -/
theorem routing_exactness (clients : List ServerClient) (g : String)
    (c : ServerClient) (frames : List (Option JoinFrame))
    (hsub : c.groupId = subAfter frames) :
    c ∈ newMessageRecipients clients g ↔
      c ∈ clients ∧ c.isOpen = true ∧ latestJoin frames = some g := by
  rw [newMessageRecipients, List.mem_filter]
  unfold subscribedSelect
  rw [← subAfter_eq_latestJoin, ← hsub]
  constructor
  · rintro ⟨hmem, hsel⟩
    rw [Bool.and_eq_true] at hsel
    exact ⟨hmem, hsel.1, by simpa using hsel.2⟩
  · rintro ⟨hmem, hopen, hgid⟩
    exact ⟨hmem, by simp [hopen, hgid]⟩

/-- Witness for `routing_exactness` at concrete inputs: a connection that
joined g2 and then g1 is routed the g1 broadcast. -/
theorem routing_exactness_witness :
    (⟨"a", true, some "g1", true⟩ : ServerClient) ∈
        newMessageRecipients [(⟨"a", true, some "g1", true⟩ : ServerClient)] "g1" ↔
      (⟨"a", true, some "g1", true⟩ : ServerClient) ∈
          [(⟨"a", true, some "g1", true⟩ : ServerClient)] ∧
        (⟨"a", true, some "g1", true⟩ : ServerClient).isOpen = true ∧
        latestJoin [some ⟨"join_group", some "g2"⟩, some ⟨"join_group", some "g1"⟩] =
          some "g1" :=
  routing_exactness [⟨"a", true, some "g1", true⟩] "g1" ⟨"a", true, some "g1", true⟩
    [some ⟨"join_group", some "g2"⟩, some ⟨"join_group", some "g1"⟩] (by decide)

theorem runNewMessageBroadcast_aux (g : String) :
    ∀ (clients : List ServerClient) (acc : List String × List String),
      clients.foldl
        (fun acc c =>
          if subscribedSelect g c then
            if c.sendOk then (acc.1 ++ [c.clientId], acc.2)
            else (acc.1, acc.2 ++ [c.clientId])
          else acc) acc =
      (acc.1 ++ (clients.filter
          (fun c => subscribedSelect g c && c.sendOk)).map ServerClient.clientId,
       acc.2 ++ (clients.filter
          (fun c => subscribedSelect g c && !c.sendOk)).map ServerClient.clientId) := by
  intro clients
  induction clients with
  | nil => intro acc; simp
  | cons c rest ih =>
    intro acc
    simp only [List.foldl_cons, List.filter_cons]
    by_cases h1 : subscribedSelect g c = true
    · by_cases h2 : c.sendOk = true
      · rw [if_pos h1, if_pos h2, ih]
        simp [h1, h2, List.append_assoc]
      · have h2' : c.sendOk = false := by simpa using h2
        rw [if_pos h1, if_neg h2, ih]
        simp [h1, h2', List.append_assoc]
    · have h1' : subscribedSelect g c = false := by simpa using h1
      rw [if_neg h1, ih]
      simp [h1']

theorem runUncaught_append (select : ServerClient → Bool) :
    ∀ pre rest : List ServerClient,
      (∀ x ∈ pre, select x = true → x.sendOk = true) →
      runUncaughtBroadcast select (pre ++ rest) =
        ((pre.filter select).map ServerClient.clientId ++
          (runUncaughtBroadcast select rest).1,
         (runUncaughtBroadcast select rest).2) := by
  intro pre
  induction pre with
  | nil => intro rest _; simp
  | cons c pr ih =>
    intro rest hok
    simp only [List.cons_append, runUncaughtBroadcast, List.filter_cons,
      List.append_eq]
    by_cases h1 : select c = true
    · rw [if_pos h1, if_pos (hok c (by simp) h1),
        ih rest (fun x hx hs => hok x (by simp [hx]) hs)]
      simp [h1]
    · have h1' : select c = false := by simpa using h1
      rw [if_neg h1, ih rest (fun x hx hs => hok x (by simp [hx]) hs)]
      simp [h1']

/-- C7 counterexample: in the `member_joined` fan-out, which has no per-send
try/catch, a throwing send to the first matching connection aborts the
iteration, so the second matching open connection receives nothing — while the
`new_message` fan-out, whose sends are individually caught, still delivers to
it under the same failure. -/
theorem broadcast_abort_cex :
    (runMemberJoinedBroadcast "g1"
        [⟨"a", true, some "g1", false⟩, ⟨"b", true, some "g1", true⟩]).1 = [] ∧
      (runMemberJoinedBroadcast "g1"
        [⟨"a", true, some "g1", false⟩, ⟨"b", true, some "g1", true⟩]).2 = true ∧
      (runNewMessageBroadcast
        [⟨"a", true, some "g1", false⟩, ⟨"b", true, some "g1", true⟩] "g1").1 = ["b"] := by
  decide

/-- C7 (amended): the `new_message` fan-out on the GroupMe write path wraps
each send in its own try/catch, so it delivers to exactly the matching
connections whose send succeeds and logs exactly those whose send fails,
independently of any other failure; the fan-outs without per-send handling
(`group_created`, `member_joined`, `member_left`, custom-group `new_message`)
deliver only to the matching connections preceding the first matching failing
send, and a matching failing send aborts the entire remaining fan-out. -/
theorem broadcast_isolation (g : String) :
    (∀ clients : List ServerClient,
      runNewMessageBroadcast clients g =
        ((clients.filter
            (fun c => subscribedSelect g c && c.sendOk)).map ServerClient.clientId,
         (clients.filter
            (fun c => subscribedSelect g c && !c.sendOk)).map ServerClient.clientId)) ∧
      (∀ (select : ServerClient → Bool) (pre rest : List ServerClient),
        (∀ x ∈ pre, select x = true → x.sendOk = true) →
        runUncaughtBroadcast select (pre ++ rest) =
          ((pre.filter select).map ServerClient.clientId ++
            (runUncaughtBroadcast select rest).1,
           (runUncaughtBroadcast select rest).2)) ∧
      (∀ (select : ServerClient → Bool) (c : ServerClient)
          (rest : List ServerClient),
        select c = true → c.sendOk = false →
        runUncaughtBroadcast select (c :: rest) = ([], true)) := by
  refine ⟨fun clients => ?_, runUncaught_append, fun select c rest h1 h2 => ?_⟩
  · unfold runNewMessageBroadcast
    rw [runNewMessageBroadcast_aux g clients ([], [])]
    simp
  · simp [runUncaughtBroadcast, h1, h2]

/-- Witness for `broadcast_isolation` at concrete inputs. -/
theorem broadcast_isolation_witness :
    runNewMessageBroadcast
        [⟨"a", true, some "g1", false⟩, ⟨"b", true, some "g1", true⟩] "g1" =
      (["b"], ["a"]) ∧
      runUncaughtBroadcast (subscribedSelect "g1")
          ([⟨"b", true, some "g1", true⟩] ++ [⟨"a", true, some "g1", false⟩]) =
        (["b"] ++ (runUncaughtBroadcast (subscribedSelect "g1")
          [⟨"a", true, some "g1", false⟩]).1,
         (runUncaughtBroadcast (subscribedSelect "g1")
          [⟨"a", true, some "g1", false⟩]).2) ∧
      runUncaughtBroadcast (subscribedSelect "g1")
          [⟨"a", true, some "g1", false⟩, ⟨"b", true, some "g1", true⟩] = ([], true) := by
  refine ⟨?_, ?_, ?_⟩
  · rw [(broadcast_isolation "g1").1
      [⟨"a", true, some "g1", false⟩, ⟨"b", true, some "g1", true⟩]]
    decide
  · rw [(broadcast_isolation "g1").2.1 (subscribedSelect "g1")
      [⟨"b", true, some "g1", true⟩] [⟨"a", true, some "g1", false⟩] (by decide)]
    decide
  · exact (broadcast_isolation "g1").2.2 (subscribedSelect "g1")
      ⟨"a", true, some "g1", false⟩ [⟨"b", true, some "g1", true⟩] (by decide) (by decide)

/-- C9: Broadcast asymmetry — a `group_created` event is attempted at every
currently open connection regardless of its subscription, whereas a
`new_message` event is attempted only at the open connections whose
subscription equals the event's conversation id. -/
theorem broadcast_asymmetry (clients : List ServerClient) (g : String)
    (c : ServerClient) :
    (c ∈ groupCreatedRecipients clients ↔ c ∈ clients ∧ c.isOpen = true) ∧
      (c ∈ newMessageRecipients clients g ↔
        c ∈ clients ∧ c.isOpen = true ∧ c.groupId = some g) := by
  constructor
  · rw [groupCreatedRecipients, List.mem_filter]
    unfold openSelect
    exact Iff.rfl
  · rw [newMessageRecipients, List.mem_filter]
    unfold subscribedSelect
    constructor
    · rintro ⟨hmem, hsel⟩
      rw [Bool.and_eq_true] at hsel
      exact ⟨hmem, hsel.1, by simpa using hsel.2⟩
    · rintro ⟨hmem, hopen, hgid⟩
      exact ⟨hmem, by simp [hopen, hgid]⟩

/-! Multi-socket hook instance: timer lemmas for cleanup-free runs and the
two-timer interleaving. -/

theorem eq_singleton_of_mem_of_length_le {α : Type} (l : List α) (t : α)
    (h2 : l.length ≤ 1) (ht : t ∈ l) : l = [t] := by
  cases l with
  | nil => cases ht
  | cons a l' =>
    simp only [List.length_cons] at h2
    have hl : l' = [] := List.length_eq_zero.1 (by omega)
    subst hl
    simp only [List.mem_singleton] at ht
    subst ht
    rfl

theorem hClearTimer_pending_nil (s : HookState)
    (h1 : ∀ t ∈ s.pending, s.stored = some t) (h2 : s.pending.length ≤ 1) :
    (hClearTimer s).pending = [] := by
  cases hs : s.stored with
  | none =>
    cases hp : s.pending with
    | nil => simp [hClearTimer, hs, hp]
    | cons a l =>
      have ha := h1 a (by rw [hp]; exact List.mem_cons_self a l)
      rw [hs] at ha
      cases ha
  | some t0 =>
    simp only [hClearTimer, hs]
    cases hp : s.pending with
    | nil => simp [hp]
    | cons a l =>
      have ha := h1 a (by rw [hp]; exact List.mem_cons_self a l)
      rw [hs] at ha
      have hat : t0 = a := by injection ha
      rw [hp] at h2
      simp only [List.length_cons] at h2
      have hl : l = [] := List.length_eq_zero.1 (by omega)
      subst hat hl
      exact List.erase_cons_head t0 []

theorem hClearTimer_sockets (s : HookState) :
    (hClearTimer s).sockets = s.sockets := by
  unfold hClearTimer
  cases hs : s.stored <;> simp [hs]

theorem hClearTimer_current (s : HookState) :
    (hClearTimer s).current = s.current := by
  unfold hClearTimer
  cases hs : s.stored <;> simp [hs]

theorem hookInv_connect (s : HookState) (h : HookInv s) : HookInv (hConnect s) := by
  obtain ⟨h1, h2, h3, h4, h5⟩ := h
  have hp := hClearTimer_pending_nil s h1 h2
  have hsk := hClearTimer_sockets s
  have hcu := hClearTimer_current s
  by_cases hb : currentBusy (hClearTimer s) = true
  · have he : hConnect s = hClearTimer s := by
      unfold hConnect
      rw [if_pos hb]
    rw [he]
    refine ⟨?_, ?_, ?_, ?_, ?_⟩
    · rw [hp]; intro t ht; cases ht
    · rw [hp]; simp
    · rw [hp]; intro hne; exact absurd rfl hne
    · rw [hsk, hcu]; exact h4
    · rw [hsk]; exact h5
  · have he : hConnect s = { (hClearTimer s) with
        intentionalClose := false,
        sockets := (hClearTimer s).sockets ++ [SockPhase.connecting],
        current := some (hClearTimer s).sockets.length,
        attempts := (hClearTimer s).attempts + 1 } := by
      unfold hConnect
      rw [if_neg hb]
    rw [he]
    refine ⟨?_, ?_, ?_, ?_, ?_⟩
    · show ∀ t ∈ (hClearTimer s).pending, _
      rw [hp]; intro t ht; cases ht
    · show (hClearTimer s).pending.length ≤ 1
      rw [hp]; simp
    · show (hClearTimer s).pending ≠ [] → _
      rw [hp]; intro hne; exact absurd rfl hne
    · show ∀ k ph, ((hClearTimer s).sockets ++ [SockPhase.connecting])[k]? = some ph →
        some (hClearTimer s).sockets.length = some k ∨ ph = SockPhase.closed
      rw [hsk]
      intro k ph hk
      rcases Nat.lt_trichotomy k s.sockets.length with hlt | heq | hgt
      · rw [List.getElem?_append_left hlt] at hk
        rcases h4 k ph hk with hcur | hclosed
        · right
          have hcb : currentBusy (hClearTimer s) =
              ((hClearTimer s).sockets[k]? == some SockPhase.connecting ||
                (hClearTimer s).sockets[k]? == some SockPhase.opened) := by
            unfold currentBusy
            rw [hcu, hcur]
          have hnb : (s.sockets[k]? == some SockPhase.connecting ||
              s.sockets[k]? == some SockPhase.opened) = false := by
            rw [← hsk, ← hcb]
            exact Bool.eq_false_iff.mpr hb
          rw [hk] at hnb
          simp only [Bool.or_eq_false_iff, beq_eq_false_iff_ne, ne_eq,
            Option.some.injEq] at hnb
          have h5k := h5 ph (List.getElem?_mem hk)
          cases ph with
          | connecting => exact absurd rfl hnb.1
          | opened => exact absurd rfl hnb.2
          | closing => exact absurd rfl h5k
          | closed => rfl
        · exact Or.inr hclosed
      · subst heq
        exact Or.inl rfl
      · rw [List.getElem?_append_right (by omega)] at hk
        rw [List.getElem?_eq_none (by simp; omega)] at hk
        cases hk
    · show ∀ ph ∈ (hClearTimer s).sockets ++ [SockPhase.connecting], _
      rw [hsk]
      intro ph hmem
      rcases List.mem_append.1 hmem with hm | hm
      · exact h5 ph hm
      · simp only [List.mem_singleton] at hm
        subst hm
        exact fun hx => SockPhase.noConfusion hx

theorem hClearTimer_pending_of_nil (s : HookState) (h : s.pending = []) :
    (hClearTimer s).pending = [] := by
  unfold hClearTimer
  cases hs : s.stored <;> simp [hs, h]

theorem hookInv_hClearTimer (t : HookState) (h : HookInv t) :
    HookInv (hClearTimer t) := by
  obtain ⟨h1, h2, _, h4, h5⟩ := h
  have hp := hClearTimer_pending_nil t h1 h2
  refine ⟨?_, ?_, ?_, ?_, ?_⟩
  · rw [hp]; intro x hx; cases hx
  · rw [hp]; simp
  · rw [hp]; intro hne; exact absurd rfl hne
  · rw [hClearTimer_sockets, hClearTimer_current]; exact h4
  · rw [hClearTimer_sockets]; exact h5

theorem hookInv_step (s : HookState) (e : HookEv)
    (he : e ≠ HookEv.cleanupCall) (h : HookInv s) : HookInv (hStep s e) := by
  obtain ⟨h1, h2, h3, h4, h5⟩ := h
  cases e with
  | cleanupCall => exact absurd rfl he
  | connectCall => exact hookInv_connect s ⟨h1, h2, h3, h4, h5⟩
  | openEvt k =>
    simp only [hStep]
    by_cases hek : (s.sockets[k]? == some SockPhase.connecting) = true
    · rw [if_pos hek]
      have hkk : s.sockets[k]? = some SockPhase.connecting := by simpa using hek
      obtain ⟨hklt, _⟩ := List.getElem?_eq_some_iff.1 hkk
      have hp : s.pending = [] := by
        by_contra hne
        exact SockPhase.noConfusion
          (h3 hne SockPhase.connecting (List.getElem?_mem hkk))
      have hcur : s.current = some k := by
        rcases h4 k SockPhase.connecting hkk with hc | hc
        · exact hc
        · exact SockPhase.noConfusion hc
      apply hookInv_hClearTimer
      refine ⟨h1, h2, ?_, ?_, ?_⟩
      · intro hne
        exact absurd hp hne
      · intro j ph hj
        have hj2 : (s.sockets.set k SockPhase.opened)[j]? = some ph := hj
        by_cases hjk : k = j
        · subst hjk
          exact Or.inl hcur
        · rw [List.getElem?_set_ne hjk] at hj2
          exact h4 j ph hj2
      · intro ph hm
        have hm2 : ph ∈ s.sockets.set k SockPhase.opened := hm
        rcases List.mem_or_eq_of_mem_set hm2 with hm3 | hm3
        · exact h5 ph hm3
        · subst hm3
          exact fun hx => SockPhase.noConfusion hx
    · rw [if_neg hek]
      exact ⟨h1, h2, h3, h4, h5⟩
  | closeEvt k =>
    simp only [hStep]
    by_cases hek : (s.sockets[k]? == some SockPhase.connecting ||
        s.sockets[k]? == some SockPhase.opened ||
        s.sockets[k]? == some SockPhase.closing) = true
    · rw [if_pos hek]
      have hph : s.sockets[k]? = some SockPhase.connecting ∨
          s.sockets[k]? = some SockPhase.opened := by
        simp only [Bool.or_eq_true, beq_iff_eq] at hek
        rcases hek with (hx | hx) | hx
        · exact Or.inl hx
        · exact Or.inr hx
        · exact absurd rfl (h5 SockPhase.closing (List.getElem?_mem hx))
      have hklt : k < s.sockets.length := by
        rcases hph with hx | hx
        · obtain ⟨hl, _⟩ := List.getElem?_eq_some_iff.1 hx
          exact hl
        · obtain ⟨hl, _⟩ := List.getElem?_eq_some_iff.1 hx
          exact hl
      have hcur : s.current = some k := by
        rcases hph with hx | hx
        · rcases h4 k SockPhase.connecting hx with hc | hc
          · exact hc
          · exact SockPhase.noConfusion hc
        · rcases h4 k SockPhase.opened hx with hc | hc
          · exact hc
          · exact SockPhase.noConfusion hc
      have hp : s.pending = [] := by
        by_contra hne
        rcases hph with hx | hx
        · exact SockPhase.noConfusion (h3 hne _ (List.getElem?_mem hx))
        · exact SockPhase.noConfusion (h3 hne _ (List.getElem?_mem hx))
      have hinv4 : ∀ (j : Nat) (ph : SockPhase),
          (s.sockets.set k SockPhase.closed)[j]? = some ph →
          ph = SockPhase.closed := by
        intro j ph hj
        by_cases hjk : k = j
        · subst hjk
          rw [List.getElem?_set_self hklt] at hj
          injection hj with hj
          exact hj.symm
        · rw [List.getElem?_set_ne hjk] at hj
          rcases h4 j ph hj with hc | hc
          · rw [hcur] at hc
            injection hc with hc
            exact absurd hc hjk
          · exact hc
      have hinv5 : ∀ ph ∈ s.sockets.set k SockPhase.closed,
          ph ≠ SockPhase.closing := by
        intro ph hm
        rcases List.mem_or_eq_of_mem_set hm with hm2 | hm2
        · exact h5 ph hm2
        · subst hm2
          exact fun hx => SockPhase.noConfusion hx
      unfold hOnClose
      split
      · refine ⟨h1, h2, ?_, ?_, hinv5⟩
        · intro hne
          exact absurd hp hne
        · intro j ph hj
          exact Or.inr (hinv4 j ph hj)
      · split
        · refine ⟨?_, ?_, ?_, ?_, hinv5⟩
          · intro x hx
            have hx2 : x ∈ s.pending ++ [s.nextTimer] := hx
            rw [hp] at hx2
            simp only [List.nil_append, List.mem_singleton] at hx2
            subst hx2
            rfl
          · show (s.pending ++ [s.nextTimer]).length ≤ 1
            rw [hp]
            simp
          · intro _ ph hm
            have hm2 : ph ∈ s.sockets.set k SockPhase.closed := hm
            obtain ⟨j, hj⟩ := List.getElem?_of_mem hm2
            exact hinv4 j ph hj
          · intro j ph hj
            exact Or.inr (hinv4 j ph hj)
        · refine ⟨h1, h2, ?_, ?_, hinv5⟩
          · intro hne
            exact absurd hp hne
          · intro j ph hj
            exact Or.inr (hinv4 j ph hj)
    · rw [if_neg hek]
      exact ⟨h1, h2, h3, h4, h5⟩
  | fire t =>
    simp only [hStep]
    by_cases het : s.pending.contains t = true
    · rw [if_pos het]
      have htm : t ∈ s.pending := by simpa using het
      have hone : s.pending = [t] :=
        eq_singleton_of_mem_of_length_le s.pending t h2 htm
      have hpe : s.pending.erase t = [] := by
        rw [hone]
        exact List.erase_cons_head t []
      apply hookInv_connect
      refine ⟨?_, ?_, ?_, h4, h5⟩
      · intro x hx
        have hx2 : x ∈ s.pending.erase t := hx
        rw [hpe] at hx2
        cases hx2
      · show (s.pending.erase t).length ≤ 1
        rw [hpe]
        simp
      · intro hne
        have hne2 : s.pending.erase t ≠ [] := hne
        exact absurd hpe hne2
    · rw [if_neg het]
      exact ⟨h1, h2, h3, h4, h5⟩

theorem hookInv_run :
    ∀ evs : List HookEv, (∀ e ∈ evs, e ≠ HookEv.cleanupCall) →
      ∀ s : HookState, HookInv s → HookInv (hRun s evs) := by
  intro evs
  induction evs with
  | nil => intro _ s h; exact h
  | cons e rest ih =>
    intro henv s h
    have hone : hRun s (e :: rest) = hRun (hStep s e) rest := rfl
    rw [hone]
    exact ih (fun x hx => henv x (by simp [hx])) _
      (hookInv_step s e (henv e (by simp)) h)

/-- C10 counterexample: mount connect (socket 0), a groupId-change cleanup
(closes socket 0, whose close event has not yet been delivered), the effect's
reconnect (socket 1, resetting `intentionalClose` to false), then socket 0's
late close event schedules a retry timer, and socket 1's failure schedules a
second one — the assignment at use-websocket.ts line 63 overwrites
`retryTimer.current` without clearing, so two retry timers are pending at
once and the claimed single-timer invariant fails. -/
theorem two_timers_pending_cex :
    (hRun initHook [HookEv.connectCall, HookEv.cleanupCall, HookEv.connectCall,
        HookEv.closeEvt 0, HookEv.closeEvt 1]).pending = [0, 1] ∧
      ¬ ((hRun initHook [HookEv.connectCall, HookEv.cleanupCall,
          HookEv.connectCall, HookEv.closeEvt 0,
          HookEv.closeEvt 1]).pending.length ≤ 1) := by
  decide

/-- C10 (amended): at most one retry timer is pending at every point of a
session that is never explicitly torn down mid-life — from a fresh hook
state, any event sequence containing no cleanup call leaves at most one
pending retry timer, because in such runs every socket that can close is the
owned one and connect, a successful open, and a consumed firing each clear
the stored timer before a new close can schedule. The cleanup-then-reconnect
interleaving escapes this discipline (see the counterexample). -/
theorem single_timer_unless_torn_down (evs : List HookEv)
    (hnc : ∀ e ∈ evs, e ≠ HookEv.cleanupCall) :
    (hRun initHook evs).pending.length ≤ 1 :=
  (hookInv_run evs hnc initHook
    ⟨by decide, by decide, by decide,
     by intro k ph hk; simp [initHook] at hk, by decide⟩).2.1

/-- Witness for `single_timer_unless_torn_down` on a concrete cleanup-free
run with a fired retry and two failures. -/
theorem single_timer_unless_torn_down_witness :
    (hRun initHook [HookEv.connectCall, HookEv.closeEvt 0, HookEv.fire 0,
        HookEv.closeEvt 1]).pending.length ≤ 1 :=
  single_timer_unless_torn_down
    [HookEv.connectCall, HookEv.closeEvt 0, HookEv.fire 0, HookEv.closeEvt 1]
    (by decide)
